import Mathlib

/-!
Shallow embedding of the snake game core from `src/main.rs`.

The game state machine (struct `SnakeGame` and its methods `new`,
`generate_food`, `update_snake`, together with the `EventHandler`
methods `update` and `key_down_event`) is translated into pure Lean
functions.  Randomness (`rand::thread_rng` / `gen_range`) is modelled
by passing an explicit list of candidate draws `cands : List Point`;
the rejection-sampling loop in `generate_food` becomes `List.find?`
over that list, returning `none` when the supplied draws are
exhausted (modelling the unbounded loop not terminating on the given
draws).  Consequently the state-mutating operations return
`Option SnakeGame`, where `none` covers the two partial behaviours of
the source: the `expect` panic on an empty snake and a diverging food
search.  The `f32` timer fields are modelled as rationals.
-/

namespace SnakeRust

/-- `struct Point` from `src/main.rs`: a point on the game grid,
with `i32` coordinates modelled as `Int`. -/
structure Point where
  x : Int
  y : Int
deriving DecidableEq, Repr

/-- `enum Direction` from `src/main.rs`. -/
inductive Direction where
  | Up
  | Down
  | Left
  | Right
deriving DecidableEq, Repr

/-- `struct SnakeGame` from `src/main.rs`.  `score : u32` is modelled
as `Nat` (it only ever increases by 1 per eaten food and stays far
below `2^32` on any finite grid), and the `f32` timer fields as `ℚ`. -/
structure SnakeGame where
  snake : List Point
  direction : Direction
  next_direction : Direction
  food : Point
  score : Nat
  grid_width : Int
  grid_height : Int
  move_timer : ℚ
  move_period : ℚ
  game_over : Bool
deriving DecidableEq, Repr

/-- `SnakeGame::generate_food`: repeatedly draw a candidate point and
return the first one not contained in the snake.  The infinite stream
of random draws is modelled by the explicit list `cands`; `none`
models the loop running out of the supplied draws. -/
def generate_food (snake : List Point) (cands : List Point) : Option Point :=
  cands.find? (fun c => decide (c ∉ snake))

/-- `SnakeGame::new`: snake is a single point at the grid center
(Rust `i32` division truncates toward zero, hence `Int.tdiv`),
direction and next direction `Right`, score `0`, a fresh food not on
the snake, timer `0`, period `0.2`, not game over. -/
def SnakeGame.new (grid_width grid_height : Int) (cands : List Point) :
    Option SnakeGame :=
  let init_pos : Point := { x := grid_width.tdiv 2, y := grid_height.tdiv 2 }
  let snake : List Point := [init_pos]
  match generate_food snake cands with
  | none => none
  | some food =>
    some {
      snake := snake
      direction := Direction.Right
      next_direction := Direction.Right
      food := food
      score := 0
      grid_width := grid_width
      grid_height := grid_height
      move_timer := 0
      move_period := 0.2
      game_over := false }

/-- The `match self.direction` block of `SnakeGame::update_snake`
computing the new head from the old head. -/
def nextHead (d : Direction) (p : Point) : Point :=
  match d with
  | Direction.Up => { p with y := p.y - 1 }
  | Direction.Down => { p with y := p.y + 1 }
  | Direction.Left => { p with x := p.x - 1 }
  | Direction.Right => { p with x := p.x + 1 }

/-- The boundary-collision condition of `SnakeGame::update_snake`. -/
def outOfBounds (g : SnakeGame) (p : Point) : Prop :=
  p.x < 0 ∨ p.x ≥ g.grid_width ∨ p.y < 0 ∨ p.y ≥ g.grid_height

instance (g : SnakeGame) (p : Point) : Decidable (outOfBounds g p) := by
  unfold outOfBounds; infer_instance

/-- `SnakeGame::update_snake`: the single discrete simulation step.
Returns `none` exactly when the source would panic (empty snake) or
when `generate_food` exhausts the supplied draws. -/
def update_snake (g : SnakeGame) (cands : List Point) : Option SnakeGame :=
  if g.game_over then
    some g
  else
    match g.snake with
    | [] => none
    | hd :: _ =>
      let dir := g.next_direction
      let new_head := nextHead dir hd
      if outOfBounds g new_head then
        some { g with direction := dir, game_over := true }
      else if new_head ∈ g.snake then
        some { g with direction := dir, game_over := true }
      else
        let snake1 := new_head :: g.snake
        if new_head = g.food then
          match generate_food snake1 cands with
          | none => none
          | some f =>
            some { g with direction := dir, snake := snake1,
                          score := g.score + 1, food := f }
        else
          some { g with direction := dir, snake := snake1.dropLast }

/-- `SnakeGame::update` (the `EventHandler` frame callback): add the
frame delta to `move_timer`; when the timer strictly exceeds
`move_period`, reset it to `0` and run one `update_snake` step. -/
def update (g : SnakeGame) (dt : ℚ) (cands : List Point) : Option SnakeGame :=
  let g1 : SnakeGame := { g with move_timer := g.move_timer + dt }
  if g1.move_timer > g1.move_period then
    update_snake { g1 with move_timer := 0 } cands
  else
    some g1

/-- The key codes `SnakeGame::key_down_event` distinguishes; every
other key collapses to `Other`. -/
inductive KeyCode where
  | Up
  | Down
  | Left
  | Right
  | R
  | Other
deriving DecidableEq, Repr

/-- The `if let Some(nd) = new_direction` block of
`SnakeGame::key_down_event`, embedded with the source's exact boolean
structure (Rust `&&` binds tighter than `||`). -/
def apply_direction (g : SnakeGame) (nd : Direction) : SnakeGame :=
  if ((g.direction = Direction.Up ∧ nd ≠ Direction.Down) ∧
        (g.direction = Direction.Down ∧ nd ≠ Direction.Up)) ∨
      (g.direction = Direction.Left ∧ nd ≠ Direction.Right) ∨
      (g.direction = Direction.Right ∧ nd ≠ Direction.Left) then
    if ¬(g.direction = Direction.Up ∧ nd = Direction.Down) ∧
       ¬(g.direction = Direction.Down ∧ nd = Direction.Up) ∧
       ¬(g.direction = Direction.Left ∧ nd = Direction.Right) ∧
       ¬(g.direction = Direction.Right ∧ nd = Direction.Left) then
      { g with next_direction := nd }
    else
      g
  else if (g.direction = Direction.Up ∧ nd ≠ Direction.Down) ∨
          (g.direction = Direction.Down ∧ nd ≠ Direction.Up) ∨
          (g.direction = Direction.Left ∧ nd ≠ Direction.Right) ∨
          (g.direction = Direction.Right ∧ nd ≠ Direction.Left) then
    { g with next_direction := nd }
  else
    g

/-- `SnakeGame::key_down_event`: arrow keys go through the reversal
filter; `R` replaces the whole state with `SnakeGame::new` (same grid
dimensions) when the game is over, and is ignored otherwise; any
other key is ignored. -/
def key_down_event (g : SnakeGame) (key : KeyCode) (cands : List Point) :
    Option SnakeGame :=
  match key with
  | KeyCode.Up => some (apply_direction g Direction.Up)
  | KeyCode.Down => some (apply_direction g Direction.Down)
  | KeyCode.Left => some (apply_direction g Direction.Left)
  | KeyCode.Right => some (apply_direction g Direction.Right)
  | KeyCode.R =>
    if g.game_over then SnakeGame.new g.grid_width g.grid_height cands
    else some g
  | KeyCode.Other => some g

/-- The opposite of a direction (§3 of the spec: Up↔Down, Left↔Right). -/
def Direction.opposite : Direction → Direction
  | Direction.Up => Direction.Down
  | Direction.Down => Direction.Up
  | Direction.Left => Direction.Right
  | Direction.Right => Direction.Left

/-- One observable transition of the game-state machine: either one
`update_snake` tick or one key event. -/
inductive Step : SnakeGame → SnakeGame → Prop where
  | advance (g g' : SnakeGame) (cands : List Point) :
      update_snake g cands = some g' → Step g g'
  | key (g g' : SnakeGame) (k : KeyCode) (cands : List Point) :
      key_down_event g k cands = some g' → Step g g'

/-- States reachable from a freshly constructed `SnakeGame` by any
sequence of ticks and key events (restarts included). -/
inductive Reachable : SnakeGame → Prop where
  | init (w h : Int) (cands : List Point) (g : SnakeGame) :
      SnakeGame.new w h cands = some g → Reachable g
  | step (g g' : SnakeGame) : Reachable g → Step g g' → Reachable g'

/-- The key code corresponding to a requested direction. -/
def Direction.toKey : Direction → KeyCode
  | Direction.Up => KeyCode.Up
  | Direction.Down => KeyCode.Down
  | Direction.Left => KeyCode.Left
  | Direction.Right => KeyCode.Right

/-- The invariant of the spec while the game is active: non-empty
snake, no duplicate cells, food off the snake. -/
def ActiveInv (g : SnakeGame) : Prop :=
  g.snake ≠ [] ∧ g.snake.Nodup ∧ g.food ∉ g.snake

/-- The full inductive invariant: the active-state invariant plus the
length/score relation (which holds in terminal states as well). -/
def Inv (g : SnakeGame) : Prop :=
  (g.game_over = false → ActiveInv g) ∧ g.snake.length = g.score + 1

/- Concrete states used to instantiate the theorems below. -/

/-- The state produced by `SnakeGame.new 20 20 [⟨0,0⟩]`. -/
def gNew : SnakeGame :=
  { snake := [{ x := 10, y := 10 }], direction := Direction.Right,
    next_direction := Direction.Right, food := { x := 0, y := 0 },
    score := 0, grid_width := 20, grid_height := 20,
    move_timer := 0, move_period := 0.2, game_over := false }

/-- A terminal variant of `gNew`. -/
def gOver : SnakeGame :=
  { gNew with game_over := true }

/-- A state one tick away from a self-collision: the head at `(1,0)`
moving left into the tail cell `(0,0)`. -/
def gSelf : SnakeGame :=
  { snake := [{ x := 1, y := 0 }, { x := 0, y := 0 }],
    direction := Direction.Left, next_direction := Direction.Left,
    food := { x := 3, y := 3 }, score := 1, grid_width := 20,
    grid_height := 20, move_timer := 0, move_period := 0.2,
    game_over := false }

/-- A state one tick away from leaving the grid: the head at `(0,0)`
moving left to `(-1,0)`. -/
def gWall : SnakeGame :=
  { snake := [{ x := 0, y := 0 }], direction := Direction.Left,
    next_direction := Direction.Left, food := { x := 3, y := 3 },
    score := 0, grid_width := 20, grid_height := 20,
    move_timer := 0, move_period := 0.2, game_over := false }

/-- A state one tick away from eating the food at `(4,2)`. -/
def gEat : SnakeGame :=
  { snake := [{ x := 3, y := 2 }, { x := 2, y := 2 }],
    direction := Direction.Right, next_direction := Direction.Right,
    food := { x := 4, y := 2 }, score := 1, grid_width := 5,
    grid_height := 5, move_timer := 0, move_period := 0.2,
    game_over := false }

/-- The state `update_snake gEat [⟨0,0⟩]` produces. -/
def gEatRes : SnakeGame :=
  { snake := [{ x := 4, y := 2 }, { x := 3, y := 2 }, { x := 2, y := 2 }],
    direction := Direction.Right, next_direction := Direction.Right,
    food := { x := 0, y := 0 }, score := 2, grid_width := 5,
    grid_height := 5, move_timer := 0, move_period := 0.2,
    game_over := false }

/- Helper lemmas. -/

theorem generate_food_not_mem {snake cands : List Point} {f : Point}
    (h : generate_food snake cands = some f) : f ∉ snake := by
  unfold generate_food at h
  simpa using List.find?_some h

theorem apply_direction_eq (g : SnakeGame) (nd : Direction) :
    apply_direction g nd = g ∨
      apply_direction g nd = { g with next_direction := nd } := by
  unfold apply_direction
  split_ifs <;> first
    | exact Or.inl rfl
    | exact Or.inr rfl

theorem update_snake_terminal (g : SnakeGame) (cands : List Point)
    (h : g.game_over = true) : update_snake g cands = some g := by
  simp [update_snake, h]

theorem update_snake_empty (g : SnakeGame) (cands : List Point)
    (hov : g.game_over = false) (hs : g.snake = []) :
    update_snake g cands = none := by
  simp [update_snake, hov, hs]

theorem update_snake_hit {g : SnakeGame} (cands : List Point)
    {hd : Point} {tl : List Point}
    (hov : g.game_over = false) (hs : g.snake = hd :: tl)
    (hcol : outOfBounds g (nextHead g.next_direction hd) ∨
            nextHead g.next_direction hd ∈ g.snake) :
    update_snake g cands =
      some { g with direction := g.next_direction, game_over := true } := by
  rcases hcol with hob | hnm
  · simp [update_snake, hov, hs, hob]
  · simp only [update_snake, hov, hs]
    split_ifs with h1 h2 <;> simp_all

theorem update_snake_eat {g : SnakeGame} {cands : List Point}
    {hd f : Point} {tl : List Point}
    (hov : g.game_over = false) (hs : g.snake = hd :: tl)
    (hob : ¬ outOfBounds g (nextHead g.next_direction hd))
    (hnm : nextHead g.next_direction hd ∉ g.snake)
    (hfo : nextHead g.next_direction hd = g.food)
    (hgen : generate_food (nextHead g.next_direction hd :: g.snake) cands
              = some f) :
    update_snake g cands =
      some { g with direction := g.next_direction,
                    snake := nextHead g.next_direction hd :: g.snake,
                    score := g.score + 1, food := f } := by
  rw [hs] at hnm hgen
  rw [hfo] at hob hnm hgen ⊢
  simp [update_snake, hov, hs, hob, hnm, hfo, hgen]

theorem update_snake_eat_none {g : SnakeGame} {cands : List Point}
    {hd : Point} {tl : List Point}
    (hov : g.game_over = false) (hs : g.snake = hd :: tl)
    (hob : ¬ outOfBounds g (nextHead g.next_direction hd))
    (hnm : nextHead g.next_direction hd ∉ g.snake)
    (hfo : nextHead g.next_direction hd = g.food)
    (hgen : generate_food (nextHead g.next_direction hd :: g.snake) cands
              = none) :
    update_snake g cands = none := by
  rw [hs] at hnm hgen
  rw [hfo] at hob hnm hgen
  simp [update_snake, hov, hs, hob, hnm, hfo, hgen]

theorem update_snake_move {g : SnakeGame} (cands : List Point)
    {hd : Point} {tl : List Point}
    (hov : g.game_over = false) (hs : g.snake = hd :: tl)
    (hob : ¬ outOfBounds g (nextHead g.next_direction hd))
    (hnm : nextHead g.next_direction hd ∉ g.snake)
    (hfo : nextHead g.next_direction hd ≠ g.food) :
    update_snake g cands =
      some { g with direction := g.next_direction,
                    snake := (nextHead g.next_direction hd :: g.snake).dropLast } := by
  rw [hs] at hnm
  simp [update_snake, hov, hs, hob, hnm, hfo]

theorem new_inv {w h : Int} {cands : List Point} {g : SnakeGame}
    (hn : SnakeGame.new w h cands = some g) : Inv g := by
  unfold SnakeGame.new at hn
  cases hf : generate_food [({ x := w.tdiv 2, y := h.tdiv 2 } : Point)] cands with
  | none => simp [hf] at hn
  | some f =>
    simp only [hf, Option.some.injEq] at hn
    subst hn
    refine ⟨fun _ => ⟨by simp, by simp, ?_⟩, by simp⟩
    simpa using generate_food_not_mem hf

theorem update_snake_inv {g g' : SnakeGame} {cands : List Point}
    (hinv : Inv g) (h : update_snake g cands = some g') : Inv g' := by
  by_cases hov : g.game_over = true
  · rw [update_snake_terminal g cands hov] at h
    cases h
    exact hinv
  · have hov' : g.game_over = false := by
      revert hov; cases g.game_over <;> simp
    cases hs : g.snake with
    | nil =>
      rw [update_snake_empty g cands hov' hs] at h
      cases h
    | cons hd tl =>
      have hact : ActiveInv g := hinv.1 hov'
      by_cases hob : outOfBounds g (nextHead g.next_direction hd)
      · rw [update_snake_hit cands hov' hs (Or.inl hob)] at h
        cases h
        exact ⟨by simp, hinv.2⟩
      · by_cases hnm : nextHead g.next_direction hd ∈ g.snake
        · rw [update_snake_hit cands hov' hs (Or.inr hnm)] at h
          cases h
          exact ⟨by simp, hinv.2⟩
        · by_cases hfo : nextHead g.next_direction hd = g.food
          · cases hgen : generate_food (nextHead g.next_direction hd :: g.snake) cands with
            | none =>
              rw [update_snake_eat_none hov' hs hob hnm hfo hgen] at h
              cases h
            | some f =>
              rw [update_snake_eat hov' hs hob hnm hfo hgen] at h
              cases h
              refine ⟨fun _ => ⟨by simp, ?_, ?_⟩, ?_⟩
              · exact List.nodup_cons.mpr ⟨hnm, hact.2.1⟩
              · exact generate_food_not_mem hgen
              · simpa using hinv.2
          · rw [update_snake_move cands hov' hs hob hnm hfo] at h
            cases h
            have hsub := List.dropLast_sublist
              (nextHead g.next_direction hd :: g.snake)
            refine ⟨fun _ => ⟨?_, ?_, ?_⟩, ?_⟩
            · show (nextHead g.next_direction hd :: g.snake).dropLast ≠ []
              have hlen : ((nextHead g.next_direction hd :: g.snake).dropLast).length
                  = g.snake.length := by
                simp [List.length_dropLast]
              intro hnil
              rw [hnil] at hlen
              simp [hs] at hlen
            · show ((nextHead g.next_direction hd :: g.snake).dropLast).Nodup
              exact (List.nodup_cons.mpr ⟨hnm, hact.2.1⟩).sublist hsub
            · show g.food ∉ (nextHead g.next_direction hd :: g.snake).dropLast
              intro hmem
              rcases List.mem_cons.mp (hsub.subset hmem) with h1 | h2
              · exact hfo h1.symm
              · exact hact.2.2 h2
            · show ((nextHead g.next_direction hd :: g.snake).dropLast).length
                  = g.score + 1
              simpa [List.length_dropLast] using hinv.2

theorem key_down_event_inv {g g' : SnakeGame} {k : KeyCode} {cands : List Point}
    (hinv : Inv g) (h : key_down_event g k cands = some g') : Inv g' := by
  have hdir : ∀ d : Direction, apply_direction g d = g' → Inv g' := by
    intro d hap
    rcases apply_direction_eq g d with he | he <;> rw [he] at hap <;> subst hap
    · exact hinv
    · exact ⟨fun hov => hinv.1 hov, hinv.2⟩
  cases k with
  | Up => exact hdir Direction.Up (Option.some.inj h)
  | Down => exact hdir Direction.Down (Option.some.inj h)
  | Left => exact hdir Direction.Left (Option.some.inj h)
  | Right => exact hdir Direction.Right (Option.some.inj h)
  | R =>
    by_cases hov : g.game_over = true
    · rw [key_down_event, if_pos hov] at h
      exact new_inv h
    · rw [key_down_event, if_neg hov] at h
      cases h
      exact hinv
  | Other =>
    cases h
    exact hinv

theorem reachable_inv {g : SnakeGame} (h : Reachable g) : Inv g := by
  induction h with
  | init w hgt cands g hn => exact new_inv hn
  | step g g' _ hstep ih =>
    cases hstep with
    | advance cands hup => exact update_snake_inv ih hup
    | key k cands hk => exact key_down_event_inv ih hk

theorem new_spec {w h : Int} {cands : List Point} {g : SnakeGame}
    (hn : SnakeGame.new w h cands = some g) :
    g.grid_width = w ∧ g.grid_height = h ∧
    g.snake = [{ x := w.tdiv 2, y := h.tdiv 2 }] ∧
    g.direction = Direction.Right ∧ g.next_direction = Direction.Right ∧
    g.score = 0 ∧ g.game_over = false ∧ g.food ∉ g.snake := by
  unfold SnakeGame.new at hn
  cases hf : generate_food [({ x := w.tdiv 2, y := h.tdiv 2 } : Point)] cands with
  | none => simp [hf] at hn
  | some f =>
    simp only [hf, Option.some.injEq] at hn
    subst hn
    exact ⟨rfl, rfl, rfl, rfl, rfl, rfl, rfl, generate_food_not_mem hf⟩

theorem apply_direction_frame (g : SnakeGame) (d : Direction) :
    (apply_direction g d).snake = g.snake ∧
    (apply_direction g d).direction = g.direction ∧
    (apply_direction g d).food = g.food ∧
    (apply_direction g d).score = g.score ∧
    (apply_direction g d).game_over = g.game_over ∧
    (apply_direction g d).grid_width = g.grid_width ∧
    (apply_direction g d).grid_height = g.grid_height ∧
    (apply_direction g d).move_timer = g.move_timer ∧
    (apply_direction g d).move_period = g.move_period := by
  rcases apply_direction_eq g d with he | he <;> rw [he] <;>
    exact ⟨rfl, rfl, rfl, rfl, rfl, rfl, rfl, rfl, rfl⟩

theorem update_eq (g : SnakeGame) (dt : ℚ) (cands : List Point) :
    update g dt cands =
      if g.move_timer + dt > g.move_period then
        update_snake { g with move_timer := 0 } cands
      else some { g with move_timer := g.move_timer + dt } :=
  rfl

/- The claim theorems. -/

/-- C1: in every state reachable from a freshly constructed game by
any sequence of `update_snake` ticks and key events, while the
`game_over` flag is false the snake is non-empty, contains no
duplicate cells, and the food is not a member of the snake. -/
theorem reachable_active_state_invariant (g : SnakeGame)
    (hr : Reachable g) (hov : g.game_over = false) :
    g.snake ≠ [] ∧ g.snake.Nodup ∧ g.food ∉ g.snake :=
  (reachable_inv hr).1 hov

/-- Witness for C1 at the state produced by `SnakeGame.new 20 20`. -/
theorem reachable_active_state_invariant_witness :
    gNew.snake ≠ [] ∧ gNew.snake.Nodup ∧ gNew.food ∉ gNew.snake :=
  reachable_active_state_invariant gNew
    (Reachable.init 20 20 [{ x := 0, y := 0 }] gNew rfl) rfl

/-- C2: with the game active, a key event requesting the exact
opposite of the currently committed direction leaves the pending
direction unchanged, and a key event requesting any other (equal or
perpendicular) direction sets the pending direction to it. -/
theorem set_direction_reversal_filter (g : SnakeGame) (d : Direction)
    (cands : List Point) (_hov : g.game_over = false) :
    ∃ g', key_down_event g (Direction.toKey d) cands = some g' ∧
      (d = g.direction.opposite → g'.next_direction = g.next_direction) ∧
      (d ≠ g.direction.opposite → g'.next_direction = d) := by
  cases d <;> cases hdir : g.direction <;>
    exact ⟨_, rfl,
      by simp [apply_direction, hdir, Direction.opposite],
      by simp [apply_direction, hdir, Direction.opposite]⟩

/-- Witness for C2: committed direction `Right`, requesting `Up`. -/
theorem set_direction_reversal_filter_witness :
    ∃ g', key_down_event gNew (Direction.toKey Direction.Up) [] = some g' ∧
      (Direction.Up = gNew.direction.opposite →
        g'.next_direction = gNew.next_direction) ∧
      (Direction.Up ≠ gNew.direction.opposite →
        g'.next_direction = Direction.Up) :=
  set_direction_reversal_filter gNew Direction.Up [] rfl

/-- C3: when the game is active and the head moved along the
committed direction lands on any cell of the pre-move body (the tail
cell included, as the body has not been popped yet), one tick sets
`game_over` and leaves snake, food and score unchanged. -/
theorem advance_self_collision (g : SnakeGame) (cands : List Point)
    (hd : Point) (tl : List Point)
    (hov : g.game_over = false) (hs : g.snake = hd :: tl)
    (hmem : nextHead g.next_direction hd ∈ g.snake) :
    ∃ g', update_snake g cands = some g' ∧ g'.game_over = true ∧
      g'.snake = g.snake ∧ g'.food = g.food ∧ g'.score = g.score :=
  ⟨_, update_snake_hit cands hov hs (Or.inr hmem), rfl, rfl, rfl, rfl⟩

/-- Witness for C3: head `(1,0)` moving left into the tail `(0,0)`. -/
theorem advance_self_collision_witness :
    ∃ g', update_snake gSelf [] = some g' ∧ g'.game_over = true ∧
      g'.snake = gSelf.snake ∧ g'.food = gSelf.food ∧
      g'.score = gSelf.score :=
  advance_self_collision gSelf [] { x := 1, y := 0 } [{ x := 0, y := 0 }]
    rfl rfl (by decide)

/-- C4: when the game is active and the head moved along the
committed direction leaves the grid, one tick sets `game_over` and
leaves snake, food and score unchanged. -/
theorem advance_boundary_collision (g : SnakeGame) (cands : List Point)
    (hd : Point) (tl : List Point)
    (hov : g.game_over = false) (hs : g.snake = hd :: tl)
    (hout : outOfBounds g (nextHead g.next_direction hd)) :
    ∃ g', update_snake g cands = some g' ∧ g'.game_over = true ∧
      g'.snake = g.snake ∧ g'.food = g.food ∧ g'.score = g.score :=
  ⟨_, update_snake_hit cands hov hs (Or.inl hout), rfl, rfl, rfl, rfl⟩

/-- Witness for C4: head `(0,0)` moving left off the grid. -/
theorem advance_boundary_collision_witness :
    ∃ g', update_snake gWall [] = some g' ∧ g'.game_over = true ∧
      g'.snake = gWall.snake ∧ g'.food = gWall.food ∧
      g'.score = gWall.score :=
  advance_boundary_collision gWall [] { x := 0, y := 0 } [] rfl rfl
    (by decide)

/-- C5: when the new head is inside the grid and not on the pre-move
body, one tick prepends it to the snake; if it equals the food the
score goes up by exactly one, the snake grows by exactly one cell and
a fresh food off the new snake is produced; otherwise the tail is
dropped, leaving length and score unchanged. -/
theorem advance_growth (g : SnakeGame) (cands : List Point)
    (g' : SnakeGame) (hd : Point) (tl : List Point)
    (hov : g.game_over = false) (hs : g.snake = hd :: tl)
    (hin : ¬ outOfBounds g (nextHead g.next_direction hd))
    (hnm : nextHead g.next_direction hd ∉ g.snake)
    (hrun : update_snake g cands = some g') :
    (nextHead g.next_direction hd = g.food →
      g'.snake = nextHead g.next_direction hd :: g.snake ∧
      g'.score = g.score + 1 ∧ g'.food ∉ g'.snake ∧
      g'.snake.length = g.snake.length + 1) ∧
    (nextHead g.next_direction hd ≠ g.food →
      g'.snake = (nextHead g.next_direction hd :: g.snake).dropLast ∧
      g'.snake.length = g.snake.length ∧ g'.score = g.score ∧
      g'.food = g.food) := by
  constructor
  · intro hfo
    cases hgen : generate_food (nextHead g.next_direction hd :: g.snake) cands with
    | none =>
      rw [update_snake_eat_none hov hs hin hnm hfo hgen] at hrun
      cases hrun
    | some f =>
      rw [update_snake_eat hov hs hin hnm hfo hgen] at hrun
      cases hrun
      exact ⟨rfl, rfl, generate_food_not_mem hgen, by simp⟩
  · intro hfo
    rw [update_snake_move cands hov hs hin hnm hfo] at hrun
    cases hrun
    refine ⟨rfl, ?_, rfl, rfl⟩
    show ((nextHead g.next_direction hd :: g.snake).dropLast).length
        = g.snake.length
    simp [List.length_dropLast]

/-- Witness for C5: `gEat` eats the food at `(4,2)`; the fresh food
draw is `(0,0)`. -/
theorem advance_growth_witness :
    (nextHead gEat.next_direction { x := 3, y := 2 } = gEat.food →
      gEatRes.snake = nextHead gEat.next_direction { x := 3, y := 2 } :: gEat.snake ∧
      gEatRes.score = gEat.score + 1 ∧ gEatRes.food ∉ gEatRes.snake ∧
      gEatRes.snake.length = gEat.snake.length + 1) ∧
    (nextHead gEat.next_direction { x := 3, y := 2 } ≠ gEat.food →
      gEatRes.snake = (nextHead gEat.next_direction { x := 3, y := 2 } :: gEat.snake).dropLast ∧
      gEatRes.snake.length = gEat.snake.length ∧ gEatRes.score = gEat.score ∧
      gEatRes.food = gEat.food) :=
  advance_growth gEat [{ x := 0, y := 0 }] gEatRes { x := 3, y := 2 }
    [{ x := 2, y := 2 }] rfl rfl (by decide) (by decide) rfl

/-- C6: on a terminal state one tick returns the state unchanged, so
running a second tick after it gives the same result as the first. -/
theorem advance_terminal_idempotent (g : SnakeGame)
    (cands cands2 : List Point) (hov : g.game_over = true) :
    update_snake g cands = some g ∧
      (update_snake g cands).bind (fun x => update_snake x cands2) =
        update_snake g cands := by
  have h1 := update_snake_terminal g cands hov
  refine ⟨h1, ?_⟩
  rw [h1]
  show update_snake g cands2 = some g
  exact update_snake_terminal g cands2 hov

/-- Witness for C6 at the terminal state `gOver`. -/
theorem advance_terminal_idempotent_witness :
    update_snake gOver [] = some gOver ∧
      (update_snake gOver []).bind (fun x => update_snake x []) =
        update_snake gOver [] :=
  advance_terminal_idempotent gOver [] [] rfl

/-- C7: the restart key replaces a terminal state by a freshly
constructed game with the same grid dimensions (one-cell snake at the
grid center, both directions `Right`, score `0`, `game_over` cleared,
food off the snake), and has no effect while the game is active. -/
theorem restart_only_when_terminal (g : SnakeGame) (cands : List Point) :
    (g.game_over = true →
      key_down_event g KeyCode.R cands =
        SnakeGame.new g.grid_width g.grid_height cands ∧
      ∀ g', SnakeGame.new g.grid_width g.grid_height cands = some g' →
        g'.grid_width = g.grid_width ∧ g'.grid_height = g.grid_height ∧
        g'.snake = [{ x := g.grid_width.tdiv 2, y := g.grid_height.tdiv 2 }] ∧
        g'.direction = Direction.Right ∧
        g'.next_direction = Direction.Right ∧ g'.score = 0 ∧
        g'.game_over = false ∧ g'.food ∉ g'.snake) ∧
    (g.game_over = false → key_down_event g KeyCode.R cands = some g) := by
  constructor
  · intro hov
    constructor
    · simp [key_down_event, hov]
    · intro g' hg'
      obtain ⟨h1, h2, h3, h4, h5, h6, h7, h8⟩ := new_spec hg'
      exact ⟨h1, h2, h3, h4, h5, h6, h7, h8⟩
  · intro hov
    simp [key_down_event, hov]

/-- Witness for C7 at the terminal state `gOver`. -/
theorem restart_only_when_terminal_witness :
    key_down_event gOver KeyCode.R [{ x := 0, y := 0 }] =
      SnakeGame.new gOver.grid_width gOver.grid_height [{ x := 0, y := 0 }] ∧
    ∀ g', SnakeGame.new gOver.grid_width gOver.grid_height
        [{ x := 0, y := 0 }] = some g' →
      g'.grid_width = gOver.grid_width ∧ g'.grid_height = gOver.grid_height ∧
      g'.snake = [{ x := gOver.grid_width.tdiv 2, y := gOver.grid_height.tdiv 2 }] ∧
      g'.direction = Direction.Right ∧
      g'.next_direction = Direction.Right ∧ g'.score = 0 ∧
      g'.game_over = false ∧ g'.food ∉ g'.snake :=
  (restart_only_when_terminal gOver [{ x := 0, y := 0 }]).1 rfl

/-- C8: a frame adds the elapsed time `dt` to the tick accumulator;
exactly when the accumulated time strictly exceeds the tick period
`0.2` the accumulator is reset to zero (the surplus is discarded, not
carried over) and exactly one `update_snake` tick runs; otherwise no
tick runs. -/
theorem frame_tick_cadence (g : SnakeGame) (dt : ℚ) (cands : List Point)
    (hp : g.move_period = 0.2) :
    (g.move_timer + dt > 0.2 →
      update g dt cands = update_snake { g with move_timer := 0 } cands) ∧
    (g.move_timer + dt ≤ 0.2 →
      update g dt cands = some { g with move_timer := g.move_timer + dt }) := by
  constructor <;> intro hc
  · rw [update_eq, if_pos (by rw [hp]; exact hc)]
  · rw [update_eq, if_neg (by rw [hp]; exact not_lt.mpr hc)]

/-- Witness for C8: a frame of `1` time unit crosses the threshold. -/
theorem frame_tick_cadence_witness :
    (gNew.move_timer + 1 > 0.2 →
      update gNew 1 [] = update_snake { gNew with move_timer := 0 } []) ∧
    (gNew.move_timer + 1 ≤ 0.2 →
      update gNew 1 [] = some { gNew with move_timer := gNew.move_timer + 1 }) :=
  frame_tick_cadence gNew 1 [] rfl

/-- C9: any key event other than the restart key in a terminal state
modifies at most the pending direction: snake, food, score, committed
direction, `game_over` flag, grid dimensions and both timer fields
are unchanged. -/
theorem key_event_frame (g : SnakeGame) (k : KeyCode) (cands : List Point)
    (hk : ¬ (k = KeyCode.R ∧ g.game_over = true)) :
    ∃ g', key_down_event g k cands = some g' ∧
      g'.snake = g.snake ∧ g'.direction = g.direction ∧
      g'.food = g.food ∧ g'.score = g.score ∧
      g'.game_over = g.game_over ∧ g'.grid_width = g.grid_width ∧
      g'.grid_height = g.grid_height ∧ g'.move_timer = g.move_timer ∧
      g'.move_period = g.move_period := by
  cases k with
  | Up => exact ⟨_, rfl, apply_direction_frame g Direction.Up⟩
  | Down => exact ⟨_, rfl, apply_direction_frame g Direction.Down⟩
  | Left => exact ⟨_, rfl, apply_direction_frame g Direction.Left⟩
  | Right => exact ⟨_, rfl, apply_direction_frame g Direction.Right⟩
  | R =>
    have hov : g.game_over = false := by
      rcases Bool.eq_false_or_eq_true g.game_over with h | h
      · exact absurd ⟨rfl, h⟩ hk
      · exact h
    refine ⟨g, ?_, rfl, rfl, rfl, rfl, rfl, rfl, rfl, rfl, rfl⟩
    simp [key_down_event, hov]
  | Other => exact ⟨g, rfl, rfl, rfl, rfl, rfl, rfl, rfl, rfl, rfl, rfl⟩

/-- Witness for C9: an `Up` key event on `gNew`. -/
theorem key_event_frame_witness :
    ∃ g', key_down_event gNew KeyCode.Up [] = some g' ∧
      g'.snake = gNew.snake ∧ g'.direction = gNew.direction ∧
      g'.food = gNew.food ∧ g'.score = gNew.score ∧
      g'.game_over = gNew.game_over ∧ g'.grid_width = gNew.grid_width ∧
      g'.grid_height = gNew.grid_height ∧ g'.move_timer = gNew.move_timer ∧
      g'.move_period = gNew.move_period :=
  key_event_frame gNew KeyCode.Up [] (by decide)

/-- C10: in every reachable state (restarts included) the snake
length equals `score + 1`. -/
theorem reachable_length_score (g : SnakeGame) (hr : Reachable g) :
    g.snake.length = g.score + 1 :=
  (reachable_inv hr).2

/-- Witness for C10 at the state produced by `SnakeGame.new 20 20`. -/
theorem reachable_length_score_witness :
    gNew.snake.length = gNew.score + 1 :=
  reachable_length_score gNew
    (Reachable.init 20 20 [{ x := 0, y := 0 }] gNew rfl)

end SnakeRust
